import Mathlib

/-!
Verification of the Mirakurun EPG program store (`src/Mirakurun/Program.ts`).

The store keeps an ordered list of `ProgramItem` references, a debounced
persistence timer, and a periodic GC timer.  We embed the store state as a
structure holding the item list and the save-timer armed flag, and each
TypeScript method as a Lean function on that state.  JavaScript values that may
be `undefined` are embedded as `Option` fields; comparisons against
`undefined` follow the JavaScript semantics (arithmetic with `undefined`
yields `NaN`, and every `<`, `>`, `<=`, `>=` comparison with `NaN` is false).
Object reference identity (JS `===` on objects, `Array.prototype.indexOf`)
is embedded by giving every item an allocation tag `ref`: two items are the
same JS object exactly when they are equal as Lean values.
-/

namespace Mirakurun

/-- Data payload of one EPG entry as used by the store: `networkId`,
`serviceId`, `eventId`, `startAt` (epoch ms) and `duration` (ms); every field
may be absent (`undefined`) in a persisted record. -/
structure ProgramData where
  networkId : Option Int
  serviceId : Option Int
  eventId : Option Int
  startAt : Option Int
  duration : Option Int
deriving DecidableEq, Repr

/-- One schedule entry held by the store: an allocation tag `ref` (object
reference identity), the integer `id`, and the `data` payload. -/
structure ProgramItem where
  ref : Nat
  id : Nat
  data : ProgramData
deriving DecidableEq, Repr

/-- State of the `Program` store: the ordered `_items` array and whether the
debounced save timer is armed (`_saveTimerId` holds a pending timer). -/
structure ProgramStore where
  items : List ProgramItem
  savePending : Bool
deriving DecidableEq, Repr

namespace Program

/-- JS comparison `x >= y` where `x` may be `undefined`: a comparison with
`NaN` is false. -/
def jsGE : Option Int → Int → Bool
  | some v, y => decide (y ≤ v)
  | none, _ => false

/-- JS comparison `x < y` where `x` may be `undefined`: a comparison with
`NaN` is false. -/
def jsLT : Option Int → Int → Bool
  | some v, y => decide (v < y)
  | none, _ => false

/-- JS test `now > startAt + duration` on a record whose `startAt` or
`duration` may be `undefined`: `undefined` propagates to `NaN` and the
comparison is then false. -/
def expired (now : Int) (d : ProgramData) : Bool :=
  match d.startAt, d.duration with
  | some startAt, some duration => decide (startAt + duration < now)
  | _, _ => false

/-- `get(id)`: linear scan returning the first item whose `id` matches, or
`null` (here `none`). -/
def get (st : ProgramStore) (id : Nat) : Option ProgramItem :=
  st.items.find? (fun item => item.id == id)

/-- `save()`: clears any pending save timer and arms a new one.  In the store
state we record only that a save is now pending; the timing of the debounce is
modelled separately by `debounceRun`. -/
def save (st : ProgramStore) : ProgramStore :=
  { st with savePending := true }

/-- `add(item)`: if no item with the same `id` exists, push the item and
schedule a debounced save; otherwise do nothing. -/
def add (st : ProgramStore) (item : ProgramItem) : ProgramStore :=
  if get st item.id = none then save { st with items := st.items ++ [item] }
  else st

/-- `remove(item)`: `indexOf` locates the exact instance (reference identity);
if found (`index !== -1`, here `index < length`), splice it out and schedule a
debounced save; otherwise do nothing. -/
def remove (st : ProgramStore) (item : ProgramItem) : ProgramStore :=
  let index := st.items.indexOf item
  if index < st.items.length then save { st with items := st.items.eraseIdx index }
  else st

/-- `exists(id)`: derived from `get` (`this.get(id) !== null`). -/
def exists_ (st : ProgramStore) (id : Nat) : Bool :=
  decide (get st id ≠ none)

/-- `findByServiceId(serviceId)`: linear scan keeping items whose
`data.serviceId` strictly equals the argument (`undefined === n` is false). -/
def findByServiceId (st : ProgramStore) (serviceId : Int) : List ProgramItem :=
  st.items.filter (fun item => decide (item.data.serviceId = some serviceId))

/-- `findConflicts(networkId, serviceId, start, end)`: linear scan keeping
items with matching `networkId` and `serviceId` whose `startAt` lies in the
half-open window `[start, end)`. -/
def findConflicts (st : ProgramStore) (networkId serviceId tStart tEnd : Int) :
    List ProgramItem :=
  st.items.filter (fun item =>
    decide (item.data.networkId = some networkId) &&
    decide (item.data.serviceId = some serviceId) &&
    jsGE item.data.startAt tStart &&
    jsLT item.data.startAt tEnd)

/-- `_save()`: persists the full snapshot `this._items.map(program =>
program.data)` to the backend. -/
def saveNow (st : ProgramStore) : List ProgramData :=
  st.items.map (fun program => program.data)

/-- Decimal digit list of `n`, least significant first, computed with explicit
fuel so that it reduces by evaluation; `decDigitsAux fuel n = Nat.digits 10 n`
whenever `n ≤ fuel` (proved below). -/
def decDigitsAux : Nat → Nat → List Nat
  | 0, _ => []
  | _ + 1, 0 => []
  | fuel + 1, n + 1 => ((n + 1) % 10) :: decDigitsAux fuel ((n + 1) / 10)

/-- Decimal digits of `n`, most significant first, as produced by JS number
to string conversion of a nonnegative integer (empty for `0`). -/
def decDigits (n : Nat) : List Nat :=
  (decDigitsAux n n).reverse

/-- Base-10 parse of a digit string, as `parseInt(s, 10)` does on a string of
decimal digits. -/
def parseDecimal (ds : List Nat) : Nat :=
  ds.foldl (fun acc d => acc * 10 + d) 0

/-- Digit string produced by `(v / 100000).toFixed(5).slice(2)`.  For
`0 ≤ v < 100000` the nearest double to `v / 100000` rounds back to exactly the
five-digit fraction of `v`, so the result is the zero-padded five-digit
decimal representation of `v`. -/
def fixed5 (v : Nat) : List Nat :=
  List.replicate (5 - (decDigits v).length) 0 ++ decDigits v

/-- Bit length of `n` (`0` for `0`), computed with explicit fuel so that it
reduces by evaluation; `n ≤ fuel` suffices. -/
def bitLen : Nat → Nat → Nat
  | 0, _ => 0
  | fuel + 1, n => if n = 0 then 0 else bitLen fuel (n / 2) + 1

/-- Round `n` to the nearest multiple of `ulp`, ties to the even multiple
(IEEE-754 round-half-even). -/
def roundNearestEven (n ulp : Nat) : Nat :=
  let q := n / ulp
  let r := n % ulp
  if 2 * r < ulp then q * ulp
  else if 2 * r > ulp then (q + 1) * ulp
  else (if q % 2 = 0 then q else q + 1) * ulp

/-- Value of a nonnegative integer as a JS number: an IEEE-754 double has 53
significand bits, so integers below `2^53` are exact and larger ones are
rounded half-to-even to 53 significant bits.  (Exponent overflow to Infinity,
at `2^1024`, is not modelled; every id considered here is far below it.) -/
def jsDoubleOfNat (n : Nat) : Nat :=
  if bitLen n n ≤ 53 then n
  else roundNearestEven n (2 ^ (bitLen n n - 53))

/-- `getProgramId(networkId, serviceId, eventId)`: concatenate the decimal
digits of `networkId` with the two five-digit blocks and parse the result in
base 10 with `parseInt`, which returns an IEEE-754 double — the exactly
parsed integer rounded to 53 significant bits.  The digit-string model of
`String(networkId)` is its plain decimal expansion, valid below `10^21`
(where JS switches to exponential notation); every instance used here stays
far below that. -/
def getProgramId (networkId serviceId eventId : Nat) : Nat :=
  jsDoubleOfNat (parseDecimal (decDigits networkId ++ fixed5 serviceId ++ fixed5 eventId))

/-- `_load()` drop test for one persisted record: dropped when
`typeof networkId === "undefined"`, else dropped when
`now > startAt + duration` (false on `undefined` operands). -/
def keepRecord (now : Int) (r : ProgramData) : Bool :=
  match r.networkId with
  | none => false
  | some _ => !(expired now r)

/-- Modelled from the spec: `ProgramItem` (its class is not under `src/`)
carries its record and an id derived from the `(networkId, serviceId,
eventId)` triple; `ref` is the fresh allocation identity of the new object. -/
def mkItem (ref : Nat) (r : ProgramData) : ProgramItem :=
  ⟨ref,
   getProgramId (r.networkId.getD 0).toNat (r.serviceId.getD 0).toNat
     (r.eventId.getD 0).toNat,
   r⟩

/-- Modelled from the spec: constructing a `ProgramItem` at load time
(`new ProgramItem(program, true)`) registers the entry into the store through
the store's duplicate-checked insertion path without scheduling a save (the
second constructor argument marks load-time registration). -/
def registerLoaded (st : ProgramStore) (item : ProgramItem) : ProgramStore :=
  if get st item.id = none then { st with items := st.items ++ [item] }
  else st

/-- `_load()`: iterate the persisted records, drop those failing `keepRecord`,
materialize the rest in order into the fresh store, and schedule a save
exactly when some record was dropped. -/
def load (now : Int) (records : List ProgramData) : ProgramStore :=
  let st :=
    ((records.filter (keepRecord now)).enum.map
        (fun p => mkItem p.1 p.2)).foldl registerLoaded ⟨[], false⟩
  if records.any (fun r => !(keepRecord now r)) then save st else st

/-- Modelled from the spec: the entry's self-removal (`program.remove()`)
re-enters the store's removal path. -/
def selfRemove (st : ProgramStore) (item : ProgramItem) : ProgramStore :=
  remove st item

/-- One step per index of the GC sweep's `forEach` over the live `_items`
array: the length is captured once at the start (the fuel), index `k`
advances by one each step, and a visit happens only if `k` is still within
the current array (`HasProperty` check of `Array.prototype.forEach`).  An
expired visited entry self-removes (splicing the live array) and is
counted. -/
def gcSweepAux (now : Int) : Nat → ProgramStore → Nat → Nat → ProgramStore × Nat
  | 0, st, _, count => (st, count)
  | fuel + 1, st, k, count =>
    match st.items[k]? with
    | none => gcSweepAux now fuel st (k + 1) count
    | some program =>
      if expired now program.data then
        gcSweepAux now fuel (selfRemove st program) (k + 1) (count + 1)
      else
        gcSweepAux now fuel st (k + 1) count

/-- Body of one `_gc()` pass (the sweep queued on the task queue): iterate
`this._items.forEach`, self-removing each entry with
`now > startAt + duration`, and report the removal count.  The re-arming of
the GC timer after the pass is outside the store state. -/
def gcSweep (now : Int) (st : ProgramStore) : ProgramStore × Nat :=
  gcSweepAux now st.items.length st 0 0

/-- Debounce semantics of `save()` over a timeline of call instants: each call
clears the pending timer — if it has not already fired — and arms a new one
`3000` ms out.  Given the (sorted) call times and the currently armed
deadline, returns the instants at which `_save` actually fires. -/
def debounceRun : List Int → Option Int → List Int
  | [], some d => [d]
  | [], none => []
  | t :: rest, pending =>
    (match pending with
     | some d => if d ≤ t then [d] else []
     | none => []) ++ debounceRun rest (some (t + 3000))

/-- Instants `t₀ ≤ t₁ ≤ …` such that each call falls strictly within the
3000 ms quiescence window opened by its predecessor. -/
def gapsOk : List Int → Bool
  | [] => true
  | [_] => true
  | a :: b :: rest => (decide (a ≤ b) && decide (b < a + 3000)) && gapsOk (b :: rest)

/-- Method-style form of `get`: a TS method returns its value together with
the receiver; `get` never writes `this._items` or a timer field, so the
receiver comes back unchanged. -/
def getM (st : ProgramStore) (id : Nat) : Option ProgramItem × ProgramStore :=
  (get st id, st)

/-- Method-style form of `exists` (read-only, receiver unchanged). -/
def existsM (st : ProgramStore) (id : Nat) : Bool × ProgramStore :=
  (exists_ st id, st)

/-- Method-style form of `findByServiceId` (read-only, receiver unchanged). -/
def findByServiceIdM (st : ProgramStore) (serviceId : Int) :
    List ProgramItem × ProgramStore :=
  (findByServiceId st serviceId, st)

/-- Method-style form of `findConflicts` (read-only, receiver unchanged). -/
def findConflictsM (st : ProgramStore) (networkId serviceId tStart tEnd : Int) :
    List ProgramItem × ProgramStore :=
  (findConflicts st networkId serviceId tStart tEnd, st)

/-- Store invariant: no two items in `_items` share an `id`. -/
def idsNodup (st : ProgramStore) : Prop :=
  (st.items.map (fun item => item.id)).Nodup

/-- Id derived from a record's `(networkId, serviceId, eventId)` triple
(absent fields default to `0`; the store claims only use defined fields). -/
def recordId (r : ProgramData) : Nat :=
  getProgramId (r.networkId.getD 0).toNat (r.serviceId.getD 0).toNat
    (r.eventId.getD 0).toNat

/-- Entry of the conflict-window test store: `(networkId, serviceId) = (1, 2)`
with the given start and duration; the `ref`/`id` double as the tag. -/
def confItem (ref : Nat) (startAt duration : Int) : ProgramItem :=
  ⟨ref, ref, ⟨some 1, some 2, none, some startAt, some duration⟩⟩

/-- Test store with `startAt ∈ {999, 1000, 1500, 1999, 2000}`; the first entry
has a duration long enough to overlap `[1000, 2000)`. -/
def confStore : ProgramStore :=
  ⟨[confItem 1 999 100000, confItem 2 1000 5, confItem 3 1500 5,
    confItem 4 1999 5, confItem 5 2000 5], false⟩

/-- Item used in concrete insert/remove instances (`ref` 7, id 77). -/
def dupItem : ProgramItem := ⟨7, 77, ⟨some 1, some 2, some 3, some 0, some 10⟩⟩

/-- A distinct object (`ref` 8) carrying the same id 77. -/
def memItem : ProgramItem := ⟨8, 77, ⟨some 9, none, none, none, none⟩⟩

/-- Store holding only `memItem`. -/
def dupStore : ProgramStore := ⟨[memItem], false⟩

/-- Expired entry (window `[0, 10]`) sitting first in the GC test store. -/
def gcItemA : ProgramItem := ⟨1, 11, ⟨some 1, some 2, none, some 0, some 10⟩⟩

/-- Expired entry (window `[0, 10]`) sitting second in the GC test store. -/
def gcItemB : ProgramItem := ⟨2, 22, ⟨some 1, some 2, none, some 0, some 10⟩⟩

/-- Record with every field present and a broadcast window still open at
`now = 5000`. -/
def recValid : ProgramData := ⟨some 1, some 2, some 3, some 10000, some 1000⟩

/-- Record lacking `networkId`. -/
def recNoNid : ProgramData := ⟨none, some 2, some 3, some 10000, some 1000⟩

/-- Record whose window `[0, 10]` has already passed at `now = 5000`. -/
def recExpired : ProgramData := ⟨some 1, some 2, some 4, some 0, some 10⟩

/-- Record carrying only a `networkId`. -/
def recOnlyNid : ProgramData := ⟨some 5, none, none, none, none⟩

lemma parseDecimal_nil : parseDecimal [] = 0 := rfl

lemma foldl_parse_init (b : List Nat) :
    ∀ init : Nat,
      b.foldl (fun acc d => acc * 10 + d) init = init * 10 ^ b.length + parseDecimal b := by
  induction b with
  | nil => intro init; simp [parseDecimal]
  | cons d tl ih =>
    intro init
    have h1 := ih (init * 10 + d)
    have h2 := ih d
    simp only [List.foldl_cons, parseDecimal, List.length_cons, Nat.zero_mul,
      Nat.zero_add] at h1 h2 ⊢
    rw [h1, h2]
    ring

lemma parseDecimal_append (a b : List Nat) :
    parseDecimal (a ++ b) = parseDecimal a * 10 ^ b.length + parseDecimal b := by
  unfold parseDecimal
  rw [List.foldl_append]
  exact foldl_parse_init b (a.foldl (fun acc d => acc * 10 + d) 0)

lemma decDigitsAux_eq_digits : ∀ (fuel n : Nat), n ≤ fuel → decDigitsAux fuel n = Nat.digits 10 n := by
  intro fuel
  induction fuel with
  | zero =>
    intro n hn
    interval_cases n
    simp [decDigitsAux]
  | succ fuel ih =>
    intro n hn
    match n with
    | 0 => simp [decDigitsAux]
    | m + 1 =>
      rw [decDigitsAux, Nat.digits_def' (by norm_num : (1:Nat) < 10) (Nat.succ_pos m)]
      have hdiv : (m + 1) / 10 ≤ fuel := by
        have := Nat.div_lt_self (Nat.succ_pos m) (by norm_num : (1:Nat) < 10)
        omega
      rw [ih ((m + 1) / 10) hdiv]

lemma decDigits_eq_digits (n : Nat) : decDigits n = (Nat.digits 10 n).reverse := by
  unfold decDigits
  rw [decDigitsAux_eq_digits n n le_rfl]

lemma parseDecimal_reverse (l : List Nat) :
    parseDecimal l.reverse = Nat.ofDigits 10 l := by
  unfold parseDecimal
  rw [List.foldl_reverse]
  induction l with
  | nil => simp
  | cons d tl ih =>
    rw [List.foldr_cons, ih, Nat.ofDigits_cons]
    omega

lemma parseDecimal_decDigits (n : Nat) : parseDecimal (decDigits n) = n := by
  rw [decDigits_eq_digits, parseDecimal_reverse, Nat.ofDigits_digits]

lemma decDigits_length_le (v : Nat) (h : v < 100000) : (decDigits v).length ≤ 5 := by
  rw [decDigits_eq_digits, List.length_reverse]
  rcases Nat.eq_zero_or_pos v with hv | hv
  · simp [hv]
  · rw [Nat.digits_len 10 v (by norm_num) (Nat.pos_iff_ne_zero.mp hv)]
    have : Nat.log 10 v < 5 :=
      (Nat.lt_pow_iff_log_lt (by norm_num) (Nat.pos_iff_ne_zero.mp hv)).mp (by omega)
    omega

lemma parseDecimal_replicate_zero (k : Nat) :
    parseDecimal (List.replicate k 0) = 0 := by
  induction k with
  | zero => rfl
  | succ k ih =>
    show parseDecimal (0 :: List.replicate k 0) = 0
    unfold parseDecimal at ih ⊢
    simpa using ih

lemma fixed5_length (v : Nat) (h : v < 100000) : (fixed5 v).length = 5 := by
  unfold fixed5
  rw [List.length_append, List.length_replicate]
  have := decDigits_length_le v h
  omega

lemma parseDecimal_fixed5 (v : Nat) : parseDecimal (fixed5 v) = v := by
  unfold fixed5
  rw [parseDecimal_append, parseDecimal_replicate_zero, parseDecimal_decDigits]
  ring

lemma parse_concat_closed_form (n s e : Nat) (hs : s < 100000) (he : e < 100000) :
    parseDecimal (decDigits n ++ fixed5 s ++ fixed5 e) = n * 10 ^ 10 + s * 10 ^ 5 + e := by
  rw [parseDecimal_append, parseDecimal_append, parseDecimal_fixed5, parseDecimal_fixed5,
    parseDecimal_decDigits, fixed5_length s hs, fixed5_length e he]
  ring

lemma bitLen_le_iff : ∀ (fuel n k : Nat), n ≤ fuel → (bitLen fuel n ≤ k ↔ n < 2 ^ k) := by
  intro fuel
  induction fuel with
  | zero =>
    intro n k hn
    have hn0 : n = 0 := Nat.le_zero.mp hn
    subst hn0
    have hpos : (0:Nat) < 2 ^ k := pow_pos (show (0:Nat) < 2 by norm_num) k
    simp [bitLen, hpos]
  | succ fuel ih =>
    intro n k hn
    by_cases h0 : n = 0
    · subst h0
      have hpos : (0:Nat) < 2 ^ k := pow_pos (show (0:Nat) < 2 by norm_num) k
      simp [bitLen, hpos]
    · rw [show bitLen (fuel + 1) n = bitLen fuel (n / 2) + 1 from by
        rw [bitLen, if_neg h0]]
      cases k with
      | zero =>
        simp only [pow_zero, Nat.lt_one_iff]
        omega
      | succ k' =>
        rw [Nat.add_le_add_iff_right]
        have hdiv : n / 2 ≤ fuel := by
          have := Nat.div_lt_self (Nat.pos_of_ne_zero h0) (by norm_num : (1:Nat) < 2)
          omega
        rw [ih (n / 2) k' hdiv, pow_succ]
        exact Nat.div_lt_iff_lt_mul (by norm_num)

lemma jsDoubleOfNat_of_lt (n : Nat) (h : n < 2 ^ 53) : jsDoubleOfNat n = n := by
  unfold jsDoubleOfNat
  rw [if_pos ((bitLen_le_iff n n 53 le_rfl).mpr h)]

lemma getProgramId_closed_form (n s e : Nat) (hs : s < 100000) (he : e < 100000) :
    getProgramId n s e = jsDoubleOfNat (n * 10 ^ 10 + s * 10 ^ 5 + e) := by
  unfold getProgramId
  rw [parse_concat_closed_form n s e hs he]

/-- C2 counterexample: the encoding is not injective over all positive
`networkId`.  The triples `(1000000, 0, 0)` and `(1000000, 0, 1)` are
distinct and within the claim's bounds, but their digit strings parse to
`10^16` and `10^16 + 1`, which both round to the double `10^16` (above
`2^53` the doubles are spaced 2 apart, and the odd tie rounds down to the
even neighbour). -/
theorem getProgramId_collision :
    0 < 1000000 ∧ (0:Nat) < 100000 ∧ (1:Nat) < 100000 ∧ (0:Nat) ≠ 1 ∧
      getProgramId 1000000 0 0 = getProgramId 1000000 0 1 := by
  decide

/-- C2 amended: `getProgramId` is deterministic — it is a function of its
three arguments — and injective on triples with `serviceId`, `eventId` in
`[0, 100000)` and `networkId` a positive integer of at most `900718`, the
range in which every encoded id stays below `2^53` and is therefore an exact
double: two such triples map to the same integer exactly when they are
componentwise equal.  (Real broadcast network ids are 16-bit, far inside the
bound.) -/
theorem getProgramId_deterministic_injective
    (n1 n2 s1 s2 e1 e2 : Nat)
    (_hn1 : 0 < n1) (_hn2 : 0 < n2)
    (hb1 : n1 ≤ 900718) (hb2 : n2 ≤ 900718)
    (hs1 : s1 < 100000) (hs2 : s2 < 100000)
    (he1 : e1 < 100000) (he2 : e2 < 100000) :
    getProgramId n1 s1 e1 = getProgramId n2 s2 e2 ↔ (n1 = n2 ∧ s1 = s2 ∧ e1 = e2) := by
  have h10 : (10:Nat) ^ 10 = 10000000000 := by norm_num
  have h5 : (10:Nat) ^ 5 = 100000 := by norm_num
  have h53 : (2:Nat) ^ 53 = 9007199254740992 := by norm_num
  have hlt1 : n1 * 10 ^ 10 + s1 * 10 ^ 5 + e1 < 2 ^ 53 := by
    rw [h10, h5, h53]
    omega
  have hlt2 : n2 * 10 ^ 10 + s2 * 10 ^ 5 + e2 < 2 ^ 53 := by
    rw [h10, h5, h53]
    omega
  rw [getProgramId_closed_form n1 s1 e1 hs1 he1, getProgramId_closed_form n2 s2 e2 hs2 he2,
    jsDoubleOfNat_of_lt _ hlt1, jsDoubleOfNat_of_lt _ hlt2, h10, h5]
  constructor
  · intro h; omega
  · intro h; omega

/-- Concrete instance of the id-encoding theorem at the spec's example triple
`(32736, 1024, 40085)` against the neighbouring triple `(32736, 1024, 40086)`. -/
theorem getProgramId_deterministic_injective_witness :
    0 < 32736 ∧ (32736:Nat) ≤ 900718 ∧ (1024:Nat) < 100000 ∧ (40085:Nat) < 100000 ∧
      (40086:Nat) < 100000 ∧
      (getProgramId 32736 1024 40085 = getProgramId 32736 1024 40086 ↔
        ((32736:Nat) = 32736 ∧ (1024:Nat) = 1024 ∧ (40085:Nat) = 40086)) :=
  ⟨by norm_num, by norm_num, by norm_num, by norm_num, by norm_num,
    getProgramId_deterministic_injective 32736 32736 1024 1024 40085 40086
      (by norm_num) (by norm_num) (by norm_num) (by norm_num) (by norm_num) (by norm_num)
      (by norm_num) (by norm_num)⟩

lemma jsGE_eq_true (x : Option Int) (y : Int) :
    jsGE x y = true ↔ ∃ v, x = some v ∧ y ≤ v := by
  cases x <;> simp [jsGE]

lemma jsLT_eq_true (x : Option Int) (y : Int) :
    jsLT x y = true ↔ ∃ v, x = some v ∧ v < y := by
  cases x <;> simp [jsLT]

/-- C3: `findConflicts(networkId, serviceId, start, end)` returns exactly the
entries matching both ids whose `startAt` lies in the half-open window
`[start, end)`; over the five-entry test store it returns exactly the entries
with `startAt ∈ {1000, 1500, 1999}`, and the entry starting at `999` is not
returned although its `startAt + duration` overlaps the window. -/
theorem findConflicts_half_open :
    (∀ (st : ProgramStore) (networkId serviceId tStart tEnd : Int) (item : ProgramItem),
      item ∈ findConflicts st networkId serviceId tStart tEnd ↔
        (item ∈ st.items ∧ item.data.networkId = some networkId ∧
          item.data.serviceId = some serviceId ∧
          ∃ startAt, item.data.startAt = some startAt ∧ tStart ≤ startAt ∧ startAt < tEnd))
  ∧ findConflicts confStore 1 2 1000 2000 =
      [confItem 2 1000 5, confItem 3 1500 5, confItem 4 1999 5] := by
  constructor
  · intro st networkId serviceId tStart tEnd item
    simp only [findConflicts, List.mem_filter, Bool.and_eq_true, decide_eq_true_eq,
      jsGE_eq_true, jsLT_eq_true]
    constructor
    · rintro ⟨hmem, ⟨⟨hn, hs⟩, ⟨v, hv, hge⟩⟩, ⟨w, hw, hlt⟩⟩
      refine ⟨hmem, hn, hs, v, hv, hge, ?_⟩
      rw [hv] at hw
      cases hw
      exact hlt
    · rintro ⟨hmem, hn, hs, v, hv, hge, hlt⟩
      exact ⟨hmem, ⟨⟨hn, hs⟩, ⟨v, hv, hge⟩⟩, ⟨v, hv, hlt⟩⟩
  · decide

lemma get_eq_none_iff (st : ProgramStore) (id : Nat) :
    get st id = none ↔ ∀ item ∈ st.items, item.id ≠ id := by
  unfold get
  rw [List.find?_eq_none]
  simp

/-- C4: `add(item)` is a silent idempotent insert — when an item with the same
`id` is already present it leaves the whole store state unchanged (it is a
total function, so no error is raised); otherwise it appends the item at the
end and arms the debounced save. -/
theorem add_idempotent_insert (st : ProgramStore) (item : ProgramItem) :
    ((∃ e ∈ st.items, e.id = item.id) → add st item = st)
  ∧ ((∀ e ∈ st.items, e.id ≠ item.id) →
      (add st item).items = st.items ++ [item] ∧ (add st item).savePending = true) := by
  constructor
  · rintro ⟨e, he, heid⟩
    have hget : ¬ get st item.id = none := by
      rw [get_eq_none_iff]
      push_neg
      exact ⟨e, he, heid⟩
    simp [add, hget]
  · intro h
    have hget : get st item.id = none := (get_eq_none_iff st item.id).mpr h
    simp [add, hget, save]

/-- Concrete instance of the insert theorem: adding `dupItem` to a store that
already holds id 77 changes nothing; adding it to the empty store appends it
and arms the save. -/
theorem add_idempotent_insert_witness :
    add dupStore dupItem = dupStore ∧
      ((add ⟨[], false⟩ dupItem).items = [dupItem] ∧
        (add ⟨[], false⟩ dupItem).savePending = true) :=
  ⟨(add_idempotent_insert dupStore dupItem).1 ⟨memItem, by decide, by decide⟩,
    (add_idempotent_insert ⟨[], false⟩ dupItem).2 (by intro e he; cases he)⟩

/-- C10: the read-only operations return the receiver state unchanged (no
item mutation, no timer change), and the result lists of the two filtering
queries are sublists of `_items` — matching entries in store iteration
order. -/
theorem read_ops_frame
    (st : ProgramStore) (id : Nat) (networkId serviceId tStart tEnd : Int) :
    (getM st id).2 = st
  ∧ (existsM st id).2 = st
  ∧ (findByServiceIdM st serviceId).2 = st
  ∧ (findConflictsM st networkId serviceId tStart tEnd).2 = st
  ∧ (findByServiceId st serviceId).Sublist st.items
  ∧ (findConflicts st networkId serviceId tStart tEnd).Sublist st.items
  ∧ (∀ item, item ∈ findByServiceId st serviceId ↔
      (item ∈ st.items ∧ item.data.serviceId = some serviceId)) := by
  refine ⟨rfl, rfl, rfl, rfl, List.filter_sublist _, List.filter_sublist _, ?_⟩
  intro item
  simp [findByServiceId, List.mem_filter]

lemma eraseIdx_indexOf_decomp {α : Type} [DecidableEq α] (l : List α) (a : α)
    (h : a ∈ l) :
    ∃ l1 l2, l = l1 ++ a :: l2 ∧ a ∉ l1 ∧ l.eraseIdx (l.indexOf a) = l1 ++ l2 := by
  induction l with
  | nil => cases h
  | cons x xs ih =>
    by_cases hxa : x = a
    · subst hxa
      exact ⟨[], xs, rfl, by simp, by rw [List.indexOf_cons_self, List.eraseIdx_cons_zero]; rfl⟩
    · have hmem : a ∈ xs := by
        rcases List.mem_cons.mp h with h' | h'
        · exact absurd h'.symm hxa
        · exact h'
      obtain ⟨l1, l2, hdec, hnot, herase⟩ := ih hmem
      refine ⟨x :: l1, l2, by rw [List.cons_append, hdec], ?_, ?_⟩
      · intro hin
        rcases List.mem_cons.mp hin with h' | h'
        · exact hxa h'.symm
        · exact hnot h'
      · rw [List.indexOf_cons_ne xs hxa, Nat.succ_eq_add_one, List.eraseIdx_cons_succ,
          herase, List.cons_append]

lemma remove_of_not_mem (st : ProgramStore) (item : ProgramItem)
    (h : item ∉ st.items) : remove st item = st := by
  unfold remove
  rw [List.indexOf_eq_length.mpr h]
  simp

/-- C6: `remove(item)` removes by reference identity.  When the exact instance
is not a member the whole state (items and timer) is left unchanged — in
particular no save is armed — even if another item carries the same `id`;
when it is a member, exactly that instance is spliced out, every other entry
is kept in place, and the debounced save is armed. -/
theorem remove_reference_identity (st : ProgramStore) (item : ProgramItem) :
    (item ∉ st.items → remove st item = st)
  ∧ (item ∈ st.items →
      ∃ l1 l2, st.items = l1 ++ item :: l2 ∧ item ∉ l1 ∧
        (remove st item).items = l1 ++ l2 ∧ (remove st item).savePending = true) := by
  constructor
  · exact remove_of_not_mem st item
  · intro h
    obtain ⟨l1, l2, hdec, hnot, herase⟩ := eraseIdx_indexOf_decomp st.items item h
    have hlt : st.items.indexOf item < st.items.length := List.indexOf_lt_length.mpr h
    refine ⟨l1, l2, hdec, hnot, ?_, ?_⟩ <;> simp [remove, hlt, save, herase]

/-- Concrete instance of the removal theorem: `dupItem` is not a member of
`dupStore` (its id 77 is present but under a different object), so removal is
a no-op; removing the actual member `memItem` empties the item list and arms
the save. -/
theorem remove_reference_identity_witness :
    remove dupStore dupItem = dupStore ∧
      (∃ l1 l2, dupStore.items = l1 ++ memItem :: l2 ∧ memItem ∉ l1 ∧
        (remove dupStore memItem).items = l1 ++ l2 ∧
        (remove dupStore memItem).savePending = true) :=
  ⟨(remove_reference_identity dupStore dupItem).1 (by decide),
    (remove_reference_identity dupStore memItem).2 (by decide)⟩

/-- C1: a single `_gc` sweep at time 100 over two adjacent entries that are
both already expired removes only the first and reports a count of 1: the
`forEach` loop splices the visited element out of the live array, shifting the
next (also expired) entry into the visited slot, where it is skipped.  This
contradicts the documented sweep semantics, which requires every entry with
`startAt + duration < T` to be removed by one sweep. -/
theorem gc_sweep_skips_adjacent_expired :
    expired 100 gcItemA.data = true ∧ expired 100 gcItemB.data = true ∧
      gcSweep 100 ⟨[gcItemA, gcItemB], false⟩ = (⟨[gcItemB], true⟩, 1) := by
  decide

lemma idsNodup_append_of_get_none (st : ProgramStore) (item : ProgramItem)
    (h : idsNodup st) (hget : get st item.id = none) :
    ((st.items ++ [item]).map (fun i => i.id)).Nodup := by
  rw [get_eq_none_iff] at hget
  rw [List.map_append, List.nodup_append]
  refine ⟨h, List.nodup_singleton _, ?_⟩
  intro x hx hx'
  simp only [List.map_cons, List.map_nil, List.mem_singleton] at hx'
  subst hx'
  obtain ⟨e, he, heid⟩ := List.mem_map.mp hx
  exact hget e he heid

lemma idsNodup_add (st : ProgramStore) (item : ProgramItem) (h : idsNodup st) :
    idsNodup (add st item) := by
  unfold add
  by_cases hget : get st item.id = none
  · simp only [hget, if_pos]
    exact idsNodup_append_of_get_none st item h hget
  · simp only [hget, if_neg]
    exact h

lemma idsNodup_remove (st : ProgramStore) (item : ProgramItem) (h : idsNodup st) :
    idsNodup (remove st item) := by
  unfold remove
  by_cases hlt : st.items.indexOf item < st.items.length
  · simp only [hlt, if_pos]
    exact List.Nodup.sublist ((List.eraseIdx_sublist _ _).map _) h
  · simp only [hlt, if_neg]
    exact h

lemma idsNodup_registerLoaded (st : ProgramStore) (item : ProgramItem)
    (h : idsNodup st) : idsNodup (registerLoaded st item) := by
  unfold registerLoaded
  by_cases hget : get st item.id = none
  · simp only [hget, if_pos]
    exact idsNodup_append_of_get_none st item h hget
  · simp only [hget, if_neg]
    exact h

lemma idsNodup_foldl_registerLoaded (its : List ProgramItem) :
    ∀ st : ProgramStore, idsNodup st → idsNodup (its.foldl registerLoaded st) := by
  induction its with
  | nil => intro st h; exact h
  | cons it rest ih =>
    intro st h
    exact ih (registerLoaded st it) (idsNodup_registerLoaded st it h)

lemma idsNodup_load (now : Int) (records : List ProgramData) :
    idsNodup (load now records) := by
  unfold load
  have hbase : idsNodup (⟨[], false⟩ : ProgramStore) := List.nodup_nil
  have h := idsNodup_foldl_registerLoaded
    ((records.filter (keepRecord now)).enum.map (fun p => mkItem p.1 p.2))
    ⟨[], false⟩ hbase
  split
  · exact h
  · exact h

lemma idsNodup_gcSweepAux (now : Int) :
    ∀ (fuel : Nat) (st : ProgramStore) (k count : Nat),
      idsNodup st → idsNodup (gcSweepAux now fuel st k count).1 := by
  intro fuel
  induction fuel with
  | zero => intro st k count h; exact h
  | succ fuel ih =>
    intro st k count h
    rw [gcSweepAux]
    cases hk : st.items[k]? with
    | none => exact ih st (k + 1) count h
    | some program =>
      by_cases hex : expired now program.data = true
      · simp only [hex, if_pos]
        exact ih (selfRemove st program) (k + 1) (count + 1)
          (idsNodup_remove st program h)
      · simp only [hex, if_neg]
        exact ih st (k + 1) count h

/-- C5: the no-duplicate-id invariant holds for the empty initial store and is
preserved by `add`, `remove`, `_load` (which always yields a duplicate-free
store) and a full GC sweep. -/
theorem ids_nodup_invariant :
    idsNodup ⟨[], false⟩
  ∧ (∀ (st : ProgramStore) (item : ProgramItem), idsNodup st → idsNodup (add st item))
  ∧ (∀ (st : ProgramStore) (item : ProgramItem), idsNodup st → idsNodup (remove st item))
  ∧ (∀ (now : Int) (records : List ProgramData), idsNodup (load now records))
  ∧ (∀ (now : Int) (st : ProgramStore), idsNodup st → idsNodup (gcSweep now st).1) :=
  ⟨List.nodup_nil, idsNodup_add, idsNodup_remove, idsNodup_load,
    fun now st h => idsNodup_gcSweepAux now st.items.length st 0 0 h⟩

/-- Concrete instances of the invariant theorem: inserting into the empty
store, removing from the one-item store, and sweeping it. -/
theorem ids_nodup_invariant_witness :
    idsNodup (add ⟨[], false⟩ gcItemA) ∧ idsNodup (remove dupStore memItem) ∧
      idsNodup (gcSweep 100 dupStore).1 :=
  ⟨ids_nodup_invariant.2.1 ⟨[], false⟩ gcItemA
      (by decide : (([] : List ProgramItem).map (fun i => i.id)).Nodup),
    ids_nodup_invariant.2.2.1 dupStore memItem
      (by decide : ((dupStore.items.map (fun i => i.id))).Nodup),
    ids_nodup_invariant.2.2.2.2 100 dupStore
      (by decide : ((dupStore.items.map (fun i => i.id))).Nodup)⟩

lemma debounceRun_pending (rest : List Int) :
    ∀ t : Int, gapsOk (t :: rest) = true →
      debounceRun rest (some (t + 3000)) =
        [(t :: rest).getLast (List.cons_ne_nil t rest) + 3000] := by
  induction rest with
  | nil =>
    intro t _
    rfl
  | cons t' rest' ih =>
    intro t hok
    have hok' : ((decide (t ≤ t') && decide (t' < t + 3000)) &&
        gapsOk (t' :: rest')) = true := hok
    rw [Bool.and_eq_true, Bool.and_eq_true] at hok'
    have hlt : t' < t + 3000 := of_decide_eq_true hok'.1.2
    rw [debounceRun]
    have hfire : ¬ t + 3000 ≤ t' := by omega
    rw [if_neg hfire, List.nil_append, ih t' hok'.2,
      List.getLast_cons (List.cons_ne_nil t' rest')]

/-- C7: when every `save()` call of a nonempty sequence falls strictly within
the 3000 ms quiescence window opened by its predecessor, exactly one
persistence write happens, at 3000 ms after the last call; and the write,
whenever it fires, persists the full snapshot `items.map(data)` of the store
state at that instant. -/
theorem save_debounce_coalesces (t : Int) (rest : List Int)
    (hok : gapsOk (t :: rest) = true) :
    debounceRun (t :: rest) none =
      [(t :: rest).getLast (List.cons_ne_nil t rest) + 3000]
  ∧ (∀ timeline : Int → ProgramStore,
      (debounceRun (t :: rest) none).map (fun d => saveNow (timeline d)) =
        [(timeline ((t :: rest).getLast (List.cons_ne_nil t rest) + 3000)).items.map
          (fun program => program.data)]) := by
  have hrun : debounceRun (t :: rest) none =
      [(t :: rest).getLast (List.cons_ne_nil t rest) + 3000] := by
    rw [debounceRun]
    exact debounceRun_pending rest t hok
  refine ⟨hrun, ?_⟩
  intro timeline
  rw [hrun]
  rfl

/-- Concrete instance of the debounce theorem: three calls at 0, 1000 and
2500 ms (each within 3000 ms of the previous) produce exactly one write, at
5500 ms. -/
theorem save_debounce_coalesces_witness :
    debounceRun [(0:Int), 1000, 2500] none = [5500] := by
  have h := (save_debounce_coalesces 0 [1000, 2500] (by decide)).1
  rw [h]
  decide

lemma registerLoaded_savePending (st : ProgramStore) (item : ProgramItem) :
    (registerLoaded st item).savePending = st.savePending := by
  unfold registerLoaded
  split <;> rfl

lemma foldl_registerLoaded_savePending (its : List ProgramItem) :
    ∀ st : ProgramStore, (its.foldl registerLoaded st).savePending = st.savePending := by
  induction its with
  | nil => intro st; rfl
  | cons it rest ih =>
    intro st
    rw [List.foldl_cons, ih (registerLoaded st it), registerLoaded_savePending]

lemma foldl_registerLoaded_items (its : List ProgramItem) :
    ∀ st : ProgramStore,
      ((st.items ++ its).map (fun i => i.id)).Nodup →
      (its.foldl registerLoaded st).items = st.items ++ its := by
  induction its with
  | nil => intro st _; simp
  | cons it rest ih =>
    intro st h
    have hcopy := h
    rw [List.map_append, List.nodup_append] at hcopy
    have hget : get st it.id = none := by
      rw [get_eq_none_iff]
      intro e he heid
      have h1 : e.id ∈ st.items.map (fun i => i.id) := List.mem_map_of_mem _ he
      have h2 : it.id ∈ (it :: rest).map (fun i => i.id) :=
        List.mem_map_of_mem _ (List.mem_cons_self it rest)
      rw [heid] at h1
      exact hcopy.2.2 h1 h2
    have hreg : registerLoaded st it = { st with items := st.items ++ [it] } := by
      unfold registerLoaded
      rw [if_pos hget]
    have hassoc : st.items ++ it :: rest = (st.items ++ [it]) ++ rest := by simp
    rw [hassoc] at h
    rw [List.foldl_cons, hreg, ih { st with items := st.items ++ [it] } h]
    simp

lemma load_behavior (now : Int) (records : List ProgramData)
    (h : ((records.filter (keepRecord now)).map recordId).Nodup) :
    (load now records).items.map (fun item => item.data) = records.filter (keepRecord now)
  ∧ (load now records).savePending = records.any (fun r => !(keepRecord now r)) := by
  have hids : ((((records.filter (keepRecord now)).enum.map
      (fun p => mkItem p.1 p.2)).foldl registerLoaded (⟨[], false⟩ : ProgramStore)).items =
        (records.filter (keepRecord now)).enum.map (fun p => mkItem p.1 p.2)) := by
    apply foldl_registerLoaded_items
    rw [List.nil_append, List.map_map]
    have hcomp : ((fun i : ProgramItem => i.id) ∘
        (fun p : Nat × ProgramData => mkItem p.1 p.2)) =
        (fun p : Nat × ProgramData => recordId p.2) := rfl
    rw [hcomp]
    have h2 : (records.filter (keepRecord now)).enum.map
        (fun p : Nat × ProgramData => recordId p.2) =
        ((records.filter (keepRecord now)).enum.map Prod.snd).map recordId := by
      rw [List.map_map]
      rfl
    rw [h2, List.enum_map_snd]
    exact h
  have hdata : ((((records.filter (keepRecord now)).enum.map
      (fun p => mkItem p.1 p.2)).foldl registerLoaded (⟨[], false⟩ : ProgramStore)).items.map
        (fun item => item.data) = records.filter (keepRecord now)) := by
    rw [hids, List.map_map]
    have hcomp : ((fun item : ProgramItem => item.data) ∘
        (fun p : Nat × ProgramData => mkItem p.1 p.2)) =
        (Prod.snd : Nat × ProgramData → ProgramData) := rfl
    rw [hcomp, List.enum_map_snd]
  have hpend := foldl_registerLoaded_savePending
    ((records.filter (keepRecord now)).enum.map (fun p => mkItem p.1 p.2))
    (⟨[], false⟩ : ProgramStore)
  unfold load
  by_cases hd : records.any (fun r => !(keepRecord now r)) = true
  · rw [if_pos hd, hd]
    exact ⟨hdata, rfl⟩
  · rw [if_neg hd]
    rw [Bool.not_eq_true] at hd
    rw [hd]
    exact ⟨hdata, hpend⟩

lemma expired_none_false (now : Int) (r : ProgramData)
    (h : r.startAt = none ∨ r.duration = none) : expired now r = false := by
  rcases h with h | h
  · cases hd : r.duration <;> simp [expired, h, hd]
  · cases hs : r.startAt <;> simp [expired, h, hs]

/-- C8: `_load` at time `now` materializes, in order, exactly the persisted
records that carry a `networkId` and are not yet expired; every record
failing either test is dropped; and the save is armed if and only if some
record was dropped.  (The hypothesis rules out duplicate ids among the kept
records, where the id-based registration would also dedupe.) -/
theorem load_self_heal (now : Int) (records : List ProgramData)
    (h : ((records.filter (keepRecord now)).map recordId).Nodup) :
    ((load now records).items.map (fun item => item.data) =
      records.filter (keepRecord now))
  ∧ ((load now records).savePending = records.any (fun r => !(keepRecord now r)))
  ∧ (∀ r ∈ records, keepRecord now r = false ↔
      (r.networkId = none ∨ expired now r = true)) := by
  refine ⟨(load_behavior now records h).1, (load_behavior now records h).2, ?_⟩
  intro r _
  cases hn : r.networkId <;> simp [keepRecord, hn]

/-- Concrete instance of the load theorem: loading a record set with one entry
missing `networkId` and one already expired yields a store containing neither,
with the self-healing save armed. -/
theorem load_self_heal_witness :
    ((load 5000 [recValid, recNoNid, recExpired]).items.map (fun item => item.data) =
      [recValid])
  ∧ (load 5000 [recValid, recNoNid, recExpired]).savePending = true := by
  have h := load_self_heal 5000 [recValid, recNoNid, recExpired] (by decide)
  exact ⟨h.1.trans (by decide), h.2.1.trans (by decide)⟩

/-- C9: the `_load` drop test looks only at `networkId` being `undefined` and
at `now > startAt + duration`; a missing `startAt` or `duration` makes the
expiry comparison false (NaN semantics), so any record with a defined
`networkId` is kept — and materialized — even when `serviceId`, `eventId`,
`startAt` or `duration` are all missing. -/
theorem load_drop_test_shallow (now : Int) (r : ProgramData) :
    (keepRecord now r = true ↔ (r.networkId ≠ none ∧ expired now r = false))
  ∧ ((r.startAt = none ∨ r.duration = none) → expired now r = false)
  ∧ (∀ nid, r.networkId = some nid → (r.startAt = none ∨ r.duration = none) →
      (load now [r]).items.map (fun item => item.data) = [r]) := by
  refine ⟨?_, expired_none_false now r, ?_⟩
  · cases hn : r.networkId <;> simp [keepRecord, hn]
  · intro nid hn hmiss
    have hexp := expired_none_false now r hmiss
    have hkeep : keepRecord now r = true := by
      simp [keepRecord, hn, hexp]
    have hfilter : [r].filter (keepRecord now) = [r] := by
      simp [hkeep]
    have hnd : (([r].filter (keepRecord now)).map recordId).Nodup := by
      rw [hfilter]
      exact List.nodup_singleton _
    have hb := (load_behavior now [r] hnd).1
    rw [hb, hfilter]

/-- Concrete instance of the drop-test theorem: a record with only `networkId`
defined passes the drop test and is materialized by `_load`. -/
theorem load_drop_test_shallow_witness :
    keepRecord 0 recOnlyNid = true ∧
      (load 0 [recOnlyNid]).items.map (fun item => item.data) = [recOnlyNid] := by
  have h := load_drop_test_shallow 0 recOnlyNid
  exact ⟨h.1.mpr (by decide), h.2.2 5 (by decide) (Or.inl (by decide))⟩

end Program

end Mirakurun
